import Mathlib

/-!
Verification development for the sigma-point generators of
`filterpy/kalman/sigma_points.py`.

Python floats are modelled as real numbers, numpy 1-D arrays of statically
known size `n` as functions `Fin n → ℝ`, 1-D arrays whose size is a runtime
quantity (the mean argument of `sigma_points`, whose size the code checks
dynamically) as `List ℝ`, and 2-D `n × n` arrays as `Matrix (Fin n) (Fin n) ℝ`.
Python exceptions are modelled with `Except NpError`.  The injected
`sqrt_method` and `subtract` callables are function-valued fields, as in the
source; `scipy.linalg.cholesky` (the default `sqrt_method`, upper triangular)
is modelled by the recursive `cholesky` below, and `np.subtract` by
`npSubtract`.
-/

noncomputable section

open Finset

/-- Errors raised by the Python code paths modelled here: the `ValueError`
of the size checks, numpy's `ValueError` for the truth value of a multi-element
boolean array, numpy's broadcasting `ValueError`, `IndexError` for an
out-of-range index, `TypeError` for operating on `None`, and the two
`Warning`s raised by `GeneralizedSigmaPoints.sigma_points`. -/
inductive NpError : Type where
  | sizeMismatch (expected got : ℕ) : NpError
  | truthAmbiguous : NpError
  | broadcastError : NpError
  | indexError : NpError
  | typeErrorNone : NpError
  | warningXDiff : NpError
  | warningPDiff : NpError
deriving DecidableEq

/-- Index `0` of a `(2n+1)`-row sigma array. -/
def finZero (n : ℕ) : Fin (2*n+1) := ⟨0, Nat.succ_pos _⟩

/-- Row index `k+1` (the subtractive or plus branch written by the loops
`sigmas[k+1] = ...`) of a `(2n+1)`-row sigma array. -/
def finLower {n : ℕ} (k : Fin n) : Fin (2*n+1) :=
  ⟨k.val + 1, by have := k.isLt; omega⟩

/-- Row index `n+k+1` (written by the loops `sigmas[n+k+1] = ...`). -/
def finUpper {n : ℕ} (k : Fin n) : Fin (2*n+1) :=
  ⟨k.val + n + 1, by have := k.isLt; omega⟩

/-- An array of `2n+1` entries whose index-0 entry is `a` and whose entries
`1..n` and `n+1..2n` are filled from `f` and `g`: the shape produced by the
loops `for k in range(n): arr[k+1] = f k; arr[n+k+1] = g k`. -/
def tri {α : Type} (n : ℕ) (a : α) (f g : Fin n → α) (i : Fin (2*n+1)) : α :=
  if h0 : i.val = 0 then a
  else if h1 : i.val ≤ n then f ⟨i.val - 1, by omega⟩
  else g ⟨i.val - n - 1, by have := i.isLt; omega⟩

lemma tri_finZero {α : Type} (n : ℕ) (a : α) (f g : Fin n → α) :
    tri n a f g (finZero n) = a := by
  simp [tri, finZero]

lemma tri_finLower {α : Type} (n : ℕ) (a : α) (f g : Fin n → α) (k : Fin n) :
    tri n a f g (finLower k) = f k := by
  have hk := k.isLt
  simp only [tri, finLower]
  rw [dif_neg (by omega), dif_pos (by omega)]
  exact congrArg f (Fin.ext (by simp))

lemma tri_finUpper {α : Type} (n : ℕ) (a : α) (f g : Fin n → α) (k : Fin n) :
    tri n a f g (finUpper k) = g k := by
  have hk := k.isLt
  simp only [tri, finUpper]
  rw [dif_neg (by omega), dif_neg (by omega)]
  exact congrArg g (Fin.ext (by simp; omega))

lemma finZero_eq_zero (n : ℕ) : finZero n = 0 := by
  exact Fin.ext (by simp [finZero])

lemma finLower_ne_zero {n : ℕ} (k : Fin n) : finLower k ≠ (0 : Fin (2*n+1)) := by
  intro h
  have := congrArg Fin.val h
  simp [finLower] at this

lemma finUpper_ne_zero {n : ℕ} (k : Fin n) : finUpper k ≠ (0 : Fin (2*n+1)) := by
  intro h
  have := congrArg Fin.val h
  simp [finUpper] at this

/-- Every index of a `(2n+1)`-row array is the mean row, a lower-branch row
`k+1`, or an upper-branch row `n+k+1`. -/
lemma fin_two_mul_add_one_cases {n : ℕ} (i : Fin (2*n+1)) :
    i = finZero n ∨ (∃ k : Fin n, i = finLower k) ∨ ∃ k : Fin n, i = finUpper k := by
  have hi := i.isLt
  by_cases h0 : i.val = 0
  · exact Or.inl (Fin.ext (by simp [finZero, h0]))
  · by_cases h1 : i.val ≤ n
    · exact Or.inr (Or.inl ⟨⟨i.val - 1, by omega⟩, Fin.ext (by simp [finLower]; omega)⟩)
    · exact Or.inr (Or.inr ⟨⟨i.val - n - 1, by omega⟩, Fin.ext (by simp [finUpper]; omega)⟩)

/-- Splitting a sum over the `2n+1` sigma indices into the mean row, the
lower-branch rows and the upper-branch rows. -/
lemma sum_split {M : Type} [AddCommMonoid M] (n : ℕ) (F : Fin (2*n+1) → M) :
    ∑ i, F i
      = F (finZero n) + ((∑ k : Fin n, F (finLower k)) + ∑ k : Fin n, F (finUpper k)) := by
  have hF : ∀ i : Fin (2*n+1),
      F i = (fun j : ℕ => if h : j < 2*n+1 then F ⟨j, h⟩ else 0) i.val := by
    intro i
    simp [i.isLt]
  calc ∑ i, F i
      = ∑ i : Fin (2*n+1), (fun j : ℕ => if h : j < 2*n+1 then F ⟨j, h⟩ else 0) i.val :=
        Finset.sum_congr rfl (fun i _ => hF i)
    _ = ∑ j ∈ Finset.range (2*n+1), (if h : j < 2*n+1 then F ⟨j, h⟩ else 0) :=
        Fin.sum_univ_eq_sum_range (fun j => if h : j < 2*n+1 then F ⟨j, h⟩ else 0) (2*n+1)
    _ = F (finZero n) + ((∑ k : Fin n, F (finLower k)) + ∑ k : Fin n, F (finUpper k)) := by
        rw [Finset.range_eq_Ico,
          ← Finset.sum_Ico_consecutive _ (Nat.zero_le (n+1)) (by omega : n+1 ≤ 2*n+1),
          ← Finset.range_eq_Ico, Finset.sum_range_succ',
          Finset.sum_Ico_eq_sum_range]
        have hcard : 2*n+1 - (n+1) = n := by omega
        rw [hcard]
        have hlow : ∑ j ∈ Finset.range n,
            (if h : j + 1 < 2*n+1 then F ⟨j+1, h⟩ else 0) = ∑ k : Fin n, F (finLower k) := by
          rw [← Fin.sum_univ_eq_sum_range (fun j => if h : j + 1 < 2*n+1 then F ⟨j+1, h⟩ else 0) n]
          refine Finset.sum_congr rfl (fun k _ => ?_)
          rw [dif_pos (by have := k.isLt; omega)]
          exact congrArg F (Fin.ext (by simp [finLower]))
        have hup : ∑ j ∈ Finset.range n,
            (if h : n+1+j < 2*n+1 then F ⟨n+1+j, h⟩ else 0) = ∑ k : Fin n, F (finUpper k) := by
          rw [← Fin.sum_univ_eq_sum_range (fun j => if h : n+1+j < 2*n+1 then F ⟨n+1+j, h⟩ else 0) n]
          refine Finset.sum_congr rfl (fun k _ => ?_)
          rw [dif_pos (by have := k.isLt; omega)]
          exact congrArg F (Fin.ext (by simp [finUpper]; omega))
        rw [hlow, hup, dif_pos (by omega : 0 < 2*n+1)]
        have hz : (⟨0, by omega⟩ : Fin (2*n+1)) = finZero n := rfl
        rw [hz]
        abel

/-- Minimum entry of a numpy vector (`np.min`); junk value `0` at size `0`,
which the source never reaches. -/
def npMin : {n : ℕ} → (Fin n → ℝ) → ℝ
  | 0, _ => 0
  | _ + 1, v => Finset.univ.inf' ⟨0, Finset.mem_univ 0⟩ v

lemma npMin_fin_one (v : Fin 1 → ℝ) : npMin v = v 0 := by
  simp [npMin]

lemma npMin_le {n : ℕ} (v : Fin (n+1) → ℝ) (j : Fin (n+1)) : npMin v ≤ v j :=
  Finset.inf'_le _ (Finset.mem_univ j)

/-- Numpy integer indexing into an axis of length `n`: indices in `[0, n)` are
used directly, indices in `[-n, 0)` wrap around from the end, anything else
raises `IndexError` (modelled as `none`). -/
def npIndex (n : ℕ) (j : ℤ) : Option (Fin n) :=
  if h : 0 ≤ j ∧ j < n then some ⟨j.toNat, by omega⟩
  else if h2 : -(n : ℤ) ≤ j ∧ j < 0 then some ⟨(j + n).toNat, by omega⟩
  else none

/-- Truth value of a boolean numpy array (`bool(arr)` as used by
`if arr: ...`): defined only for single-element arrays, otherwise numpy raises
`ValueError: The truth value of an array with more than one element is
ambiguous`. -/
def npTruthy : List Bool → Except NpError Bool
  | [b] => .ok b
  | _ => .error .truthAmbiguous

/-- Elementwise `!=` of two 1-D numpy arrays, with numpy broadcasting of a
single-element operand; incompatible shapes raise a broadcasting error. -/
def npNeBroadcast (a b : List ℝ) : Except NpError (List Bool) :=
  if a.length = b.length then .ok (List.zipWith (fun u v => decide (u ≠ v)) a b)
  else if a.length = 1 then .ok (b.map (fun v => decide (a.getD 0 0 ≠ v)))
  else if b.length = 1 then .ok (a.map (fun u => decide (u ≠ b.getD 0 0)))
  else .error .broadcastError

/-- The default `subtract` capability, `np.subtract`: elementwise difference. -/
def npSubtract (n : ℕ) (a b : Fin n → ℝ) : Fin n → ℝ := fun j => a j - b j

/-- One row of the upper-triangular Cholesky factor, given the rows above it
(`prev`) and the row index `i`. -/
def cholNextRow (M : ℕ → ℕ → ℝ) (prev : List (ℕ → ℝ)) (i : ℕ) : ℕ → ℝ :=
  fun j =>
    if j < i then 0
    else if j = i then Real.sqrt (M i i - (prev.map (fun r => (r i)^2)).sum)
    else (M i j - (prev.map (fun r => r i * r j)).sum)
      / Real.sqrt (M i i - (prev.map (fun r => (r i)^2)).sum)

/-- The first `m` rows of the upper-triangular Cholesky factor of `M`. -/
def cholRows (M : ℕ → ℕ → ℝ) : ℕ → List (ℕ → ℝ)
  | 0 => []
  | m + 1 => cholRows M m ++ [cholNextRow M (cholRows M m) m]

/-- Model of `scipy.linalg.cholesky` (the default `sqrt_method` of the
generators): the upper-triangular factor `U` with `Uᵀ * U = M` for symmetric
positive-definite `M`, computed by the standard Cholesky recurrence. -/
def cholesky (n : ℕ) (M : Matrix (Fin n) (Fin n) ℝ) : Matrix (Fin n) (Fin n) ℝ :=
  fun i j =>
    ((cholRows (fun a b => if h : a < n ∧ b < n then M ⟨a, h.1⟩ ⟨b, h.2⟩ else 0) n).getD
      i (fun _ => 0)) j

/-- `MerweScaledSigmaPoints.__init__` fields: `n` (the type index), `alpha`,
`beta`, `kappa`, the injected `sqrt_method` (default `cholesky`) and the
injected `subtract` (default `npSubtract`). -/
structure MerweScaledSigmaPoints (n : ℕ) : Type where
  alpha : ℝ
  beta : ℝ
  kappa : ℝ
  sqrt : Matrix (Fin n) (Fin n) ℝ → Matrix (Fin n) (Fin n) ℝ
  subtract : (Fin n → ℝ) → (Fin n → ℝ) → Fin n → ℝ

/-- `lambda_ = alpha**2 * (n + kappa) - n` as computed in both
`sigma_points` and `_compute_weights`. -/
def MerweScaledSigmaPoints.lambda_ {n : ℕ} (m : MerweScaledSigmaPoints n) : ℝ :=
  m.alpha^2 * ((n : ℝ) + m.kappa) - n

/-- `MerweScaledSigmaPoints.num_sigmas`. -/
def MerweScaledSigmaPoints.num_sigmas (n : ℕ) : ℕ := 2*n + 1

/-- `self.Wm` after `_compute_weights`: `np.full(2n+1, .5/(n+lambda_))` with
entry `0` overwritten by `lambda_/(n+lambda_)`. -/
def MerweScaledSigmaPoints.Wm {n : ℕ} (m : MerweScaledSigmaPoints n) : Fin (2*n+1) → ℝ :=
  Function.update (fun _ => 0.5 / ((n : ℝ) + m.lambda_)) 0
    (m.lambda_ / ((n : ℝ) + m.lambda_))

/-- `self.Wc` after `_compute_weights`: as `Wm` but entry `0` is
`lambda_/(n+lambda_) + (1 - alpha**2 + beta)`. -/
def MerweScaledSigmaPoints.Wc {n : ℕ} (m : MerweScaledSigmaPoints n) : Fin (2*n+1) → ℝ :=
  Function.update (fun _ => 0.5 / ((n : ℝ) + m.lambda_)) 0
    (m.lambda_ / ((n : ℝ) + m.lambda_) + (1 - m.alpha^2 + m.beta))

/-- Body of `MerweScaledSigmaPoints.sigma_points` after the size check and
broadcasts: `U = sqrt((lambda_+n)*P)`; `sigmas[0] = x`;
`sigmas[k+1] = subtract(x, -U[k])`; `sigmas[n+k+1] = subtract(x, U[k])`. -/
def MerweScaledSigmaPoints.sigma_points {n : ℕ} (m : MerweScaledSigmaPoints n)
    (x : Fin n → ℝ) (P : Matrix (Fin n) (Fin n) ℝ) : Fin (2*n+1) → Fin n → ℝ :=
  tri n x
    (fun k => m.subtract x (fun j => -(m.sqrt ((m.lambda_ + n) • P) k j)))
    (fun k => m.subtract x (m.sqrt ((m.lambda_ + n) • P) k))

/-- The `np.isscalar(P)` branch of `sigma_points`: a scalar covariance is
broadcast to `np.eye(n) * P`. -/
def MerweScaledSigmaPoints.sigma_points_scalarP {n : ℕ} (m : MerweScaledSigmaPoints n)
    (x : Fin n → ℝ) (p : ℝ) : Fin (2*n+1) → Fin n → ℝ :=
  m.sigma_points x (p • (1 : Matrix (Fin n) (Fin n) ℝ))

/-- `MerweScaledSigmaPoints.sigma_points` on a runtime-sized mean: the
entry check `if self.n != np.size(x): raise ValueError(...)` followed by the
point computation. -/
def MerweScaledSigmaPoints.sigma_points_list {n : ℕ} (m : MerweScaledSigmaPoints n)
    (xc : List ℝ) (P : Matrix (Fin n) (Fin n) ℝ) :
    Except NpError (Fin (2*n+1) → Fin n → ℝ) :=
  if n = xc.length then .ok (m.sigma_points (fun i => xc.getD i 0) P)
  else .error (.sizeMismatch n xc.length)

/-- `JulierSigmaPoints.__init__` fields: `n` (the type index), `kappa`, the
injected `sqrt_method` and `subtract`. -/
structure JulierSigmaPoints (n : ℕ) : Type where
  kappa : ℝ
  sqrt : Matrix (Fin n) (Fin n) ℝ → Matrix (Fin n) (Fin n) ℝ
  subtract : (Fin n → ℝ) → (Fin n → ℝ) → Fin n → ℝ

/-- `JulierSigmaPoints.num_sigmas`. -/
def JulierSigmaPoints.num_sigmas (n : ℕ) : ℕ := 2*n + 1

/-- `self.Wm` after `JulierSigmaPoints._compute_weights`:
`np.full(2n+1, .5/(n+k))` with entry `0` overwritten by `k/(n+k)`. -/
def JulierSigmaPoints.Wm {n : ℕ} (j : JulierSigmaPoints n) : Fin (2*n+1) → ℝ :=
  Function.update (fun _ => 0.5 / ((n : ℝ) + j.kappa)) 0 (j.kappa / ((n : ℝ) + j.kappa))

/-- `self.Wc = self.Wm` (the same array) in `JulierSigmaPoints._compute_weights`. -/
def JulierSigmaPoints.Wc {n : ℕ} (j : JulierSigmaPoints n) : Fin (2*n+1) → ℝ := j.Wm

/-- Body of `JulierSigmaPoints.sigma_points` after the size check and
broadcasts: `U = sqrt((n + kappa)*P)`; `sigmas[0] = x`;
`sigmas[k+1] = subtract(x, -U[k])`; `sigmas[n+k+1] = subtract(x, U[k])`. -/
def JulierSigmaPoints.sigma_points {n : ℕ} (j : JulierSigmaPoints n)
    (x : Fin n → ℝ) (P : Matrix (Fin n) (Fin n) ℝ) : Fin (2*n+1) → Fin n → ℝ :=
  tri n x
    (fun k => j.subtract x (fun l => -(j.sqrt (((n : ℝ) + j.kappa) • P) k l)))
    (fun k => j.subtract x (j.sqrt (((n : ℝ) + j.kappa) • P) k))

/-- `JulierSigmaPoints.sigma_points` on a runtime-sized mean, with its
leading size check. -/
def JulierSigmaPoints.sigma_points_list {n : ℕ} (j : JulierSigmaPoints n)
    (xc : List ℝ) (P : Matrix (Fin n) (Fin n) ℝ) :
    Except NpError (Fin (2*n+1) → Fin n → ℝ) :=
  if n = xc.length then .ok (j.sigma_points (fun i => xc.getD i 0) P)
  else .error (.sizeMismatch n xc.length)

/-- `SimplexSigmaPoints.__init__` fields: `n` (the type index), `alpha`
(stored but unused by the algorithm), the injected `sqrt_method` and
`subtract`. -/
structure SimplexSigmaPoints (n : ℕ) : Type where
  alpha : ℝ
  sqrt : Matrix (Fin n) (Fin n) ℝ → Matrix (Fin n) (Fin n) ℝ
  subtract : (Fin n → ℝ) → (Fin n → ℝ) → Fin n → ℝ

/-- `SimplexSigmaPoints.num_sigmas`. -/
def SimplexSigmaPoints.num_sigmas (n : ℕ) : ℕ := n + 1

/-- `self.Wm` after `SimplexSigmaPoints._compute_weights`:
`np.full(n+1, 1/(n+1))`. -/
def SimplexSigmaPoints.Wm (n : ℕ) : Fin (n+1) → ℝ := fun _ => 1 / ((n : ℝ) + 1)

/-- `self.Wc = self.Wm` in `SimplexSigmaPoints._compute_weights`. -/
def SimplexSigmaPoints.Wc (n : ℕ) : Fin (n+1) → ℝ := SimplexSigmaPoints.Wm n

/-- The `Istar` direction matrix of `SimplexSigmaPoints.sigma_points`, built
iteratively: for dimension `1` it is the row `[-1/sqrt(2*lam), 1/sqrt(2*lam)]`;
each step to dimension `d` appends a zero column to the existing rows and a
new constant row `1/sqrt(lam*d*(d+1))` whose last entry is
`-d/sqrt(lam*d*(d+1))`.  Entries outside the `d x (d+1)` active block are
junk zeros. -/
def SimplexSigmaPoints.Istar (lam : ℝ) : ℕ → ℕ → ℕ → ℝ
  | 0, _, _ => 0
  | 1, i, j =>
      if i = 0 then
        if j = 0 then -1 / Real.sqrt (2 * lam)
        else if j = 1 then 1 / Real.sqrt (2 * lam)
        else 0
      else 0
  | d + 2, i, j =>
      if i ≤ d then
        (if j = d + 2 then 0 else SimplexSigmaPoints.Istar lam (d + 1) i j)
      else if i = d + 1 then
        (if j ≤ d + 1 then 1 / Real.sqrt (lam * ((d : ℝ) + 2) * ((d : ℝ) + 3))
         else if j = d + 2 then -((d : ℝ) + 2) / Real.sqrt (lam * ((d : ℝ) + 2) * ((d : ℝ) + 3))
         else 0)
      else 0

/-- Body of `SimplexSigmaPoints.sigma_points` after the size check and
broadcasts, specialised (as in the default configuration) to the elementwise
`np.subtract`: `U = sqrt(P)`; `lambda_ = n/(n+1)`; `I = sqrt(n)*Istar`;
`scaled_unitary = U.T.dot(I)`; `sigmas = subtract(x, -scaled_unitary).T`, so
row `j`, column `i` of the result is `x i + scaled_unitary i j`. -/
def SimplexSigmaPoints.sigma_points {n : ℕ} (sp : SimplexSigmaPoints n)
    (x : Fin n → ℝ) (P : Matrix (Fin n) (Fin n) ℝ) : Fin (n+1) → Fin n → ℝ :=
  fun j i =>
    x i + ∑ r : Fin n,
      sp.sqrt P r i * (Real.sqrt n * SimplexSigmaPoints.Istar ((n : ℝ) / ((n : ℝ) + 1)) n r j)

/-- `SimplexSigmaPoints.sigma_points` on a runtime-sized mean, with its
leading size check. -/
def SimplexSigmaPoints.sigma_points_list {n : ℕ} (sp : SimplexSigmaPoints n)
    (xc : List ℝ) (P : Matrix (Fin n) (Fin n) ℝ) :
    Except NpError (Fin (n+1) → Fin n → ℝ) :=
  if n = xc.length then .ok (sp.sigma_points (fun i => xc.getD i 0) P)
  else .error (.sizeMismatch n xc.length)

/-- `GeneralizedSigmaPoints` instance state: the stored mean `self.x`
(`None` when not supplied; kept as a runtime-sized `List` as the constructor
performs no dimension verification on it), the moments `self.P`, `self.S`,
`self.K`, the slack `self.k`, the `positively_constrained` flag and the scale
array `self.s` of length `2n+1`. -/
structure GeneralizedSigmaPoints (n : ℕ) : Type where
  x : Option (List ℝ)
  P : Matrix (Fin n) (Fin n) ℝ
  S : Fin n → ℝ
  K : Fin n → ℝ
  k : ℝ
  positively_constrained : Bool
  s : Fin (2*n+1) → ℝ

/-- `GeneralizedSigmaPoints.num_sigmas`. -/
def GeneralizedSigmaPoints.num_sigmas (n : ℕ) : ℕ := 2*n + 1

/-- `std = np.sqrt(np.diag(self.P))` in `_compute_weights`. -/
def GeneralizedSigmaPoints.std {n : ℕ} (g : GeneralizedSigmaPoints n) : Fin n → ℝ :=
  fun i => Real.sqrt (g.P i i)

/-- `S_ = self.S/std**3.0`, the standardized skewness. -/
def GeneralizedSigmaPoints.S_ {n : ℕ} (g : GeneralizedSigmaPoints n) : Fin n → ℝ :=
  fun i => g.S i / (g.std i)^(3 : ℕ)

/-- `K_ = self.K/std**4.0`, the standardized kurtosis. -/
def GeneralizedSigmaPoints.K_ {n : ℕ} (g : GeneralizedSigmaPoints n) : Fin n → ℝ :=
  fun i => g.K i / (g.std i)^(4 : ℕ)

/-- The scale entries `self.s[i]` for `i = 1..n` (stored here at offset
`i_ = i-1`) as written by `_compute_weights`: the free-parameter formula
`0.5*(-S_[i_] + sqrt(4*K_[i_] - 3*S_[i_]**2))` when `compute_free_parameter`
is true, the previous value `self.s[i]` otherwise. -/
def GeneralizedSigmaPoints.sLower {n : ℕ} (g : GeneralizedSigmaPoints n) (cf : Bool) :
    Fin n → ℝ :=
  fun i_ =>
    if cf then 0.5 * (-(g.S_ i_) + Real.sqrt (4 * g.K_ i_ - 3 * (g.S_ i_)^2))
    else g.s (finLower i_)

/-- The scale entries `self.s[i+n] = self.s[i] + S_[i_]` written by
`_compute_weights` (at offset `i_ = i-1`). -/
def GeneralizedSigmaPoints.sUpper {n : ℕ} (g : GeneralizedSigmaPoints n) (cf : Bool) :
    Fin n → ℝ :=
  fun i_ => g.sLower cf i_ + g.S_ i_

/-- The whole scale array `self.s` after `_compute_weights` ran on state `g`
with `compute_free_parameter = cf`: entry `0` is untouched. -/
def GeneralizedSigmaPoints.compute_weights_s {n : ℕ} (g : GeneralizedSigmaPoints n)
    (cf : Bool) : Fin (2*n+1) → ℝ :=
  tri n (g.s (finZero n)) (g.sLower cf) (g.sUpper cf)

/-- Weights `w[i+n] = 1/(s[i+n]*(s[i] + s[i+n]))` of `_compute_weights`. -/
def GeneralizedSigmaPoints.wUpper {n : ℕ} (g : GeneralizedSigmaPoints n) (cf : Bool) :
    Fin n → ℝ :=
  fun i_ => 1 / (g.sUpper cf i_ * (g.sLower cf i_ + g.sUpper cf i_))

/-- Weights `w[i] = s[i+n]/s[i]*w[i+n]` of `_compute_weights`. -/
def GeneralizedSigmaPoints.wLower {n : ℕ} (g : GeneralizedSigmaPoints n) (cf : Bool) :
    Fin n → ℝ :=
  fun i_ => g.sUpper cf i_ / g.sLower cf i_ * g.wUpper cf i_

/-- The weight array `w` (stored as both `self.Wm` and `self.Wc`) computed by
`_compute_weights` on state `g`: `w[0] = 1 - np.sum(w)` where the sum ranges
over the already-filled entries `1..2n`. -/
def GeneralizedSigmaPoints.w {n : ℕ} (g : GeneralizedSigmaPoints n) (cf : Bool) :
    Fin (2*n+1) → ℝ :=
  tri n (1 - ((∑ i_ : Fin n, g.wLower cf i_) + ∑ i_ : Fin n, g.wUpper cf i_))
    (g.wLower cf) (g.wUpper cf)

/-- The point-filling loop of `GeneralizedSigmaPoints.sigma_points` for a
given scale array `s`: `sigmas[0] = x`;
`sigmas[i] = x - s[i]*np.sqrt(P[:, i-1])`;
`sigmas[i+n] = x + s[i+n]*np.sqrt(P[:, i-1])` (elementwise square root of the
column of the covariance passed to the call). -/
def GeneralizedSigmaPoints.sigma_pass (n : ℕ) (xc : Fin n → ℝ)
    (Pc : Matrix (Fin n) (Fin n) ℝ) (s : Fin (2*n+1) → ℝ) :
    Fin (2*n+1) → Fin n → ℝ :=
  tri n xc
    (fun i_ j => xc j - s (finLower i_) * Real.sqrt (Pc j i_))
    (fun i_ j => xc j + s (finUpper i_) * Real.sqrt (Pc j i_))

/-- One iteration of `_redefine_scale_param`: for row `i` (over all `2n+1`
rows), if `np.min(sigmas[i]) < 0` then
`self.s[i] = self.k*np.min(self.x/np.sqrt(self.P)[:, i-1])`, where the column
index `i-1` follows numpy indexing (`npIndex`): `-1` wraps to the last
column, indices `>= n` raise `IndexError`; a `None` stored mean makes the
division raise `TypeError`. -/
def GeneralizedSigmaPoints.redefine_scale_param_step {n : ℕ}
    (g : GeneralizedSigmaPoints n) (sigmas : Fin (2*n+1) → Fin n → ℝ)
    (s : Fin (2*n+1) → ℝ) (i : Fin (2*n+1)) : Except NpError (Fin (2*n+1) → ℝ) :=
  if npMin (sigmas i) < 0 then
    match npIndex n ((i.val : ℤ) - 1) with
    | none => .error .indexError
    | some c =>
      match g.x with
      | none => .error .typeErrorNone
      | some xl =>
        .ok (Function.update s i
          (g.k * npMin (fun j : Fin n => xl.getD j 0 / Real.sqrt (g.P j c))))
  else .ok s

/-- `_redefine_scale_param`: the loop `for i in range(len(sigmas))` threading
the mutated `self.s`. -/
def GeneralizedSigmaPoints.redefine_scale_param {n : ℕ}
    (g : GeneralizedSigmaPoints n) (sigmas : Fin (2*n+1) → Fin n → ℝ) :
    Except NpError (Fin (2*n+1) → ℝ) :=
  (List.finRange (2*n+1)).foldlM (g.redefine_scale_param_step sigmas) g.s

/-- The value `self.k*np.min(self.x/np.sqrt(self.P)[:, i-1])` that a
successful `_redefine_scale_param` iteration writes into `self.s[i]` (junk
`0` when the iteration would instead raise). -/
def GeneralizedSigmaPoints.redefineVal {n : ℕ} (g : GeneralizedSigmaPoints n)
    (i : Fin (2*n+1)) : ℝ :=
  match npIndex n ((i.val : ℤ) - 1), g.x with
  | some c, some xl => g.k * npMin (fun j : Fin n => xl.getD j 0 / Real.sqrt (g.P j c))
  | _, _ => 0

/-- Body of `GeneralizedSigmaPoints.sigma_points` after the entry checks:
first point pass with the current `self.s`; when `positively_constrained`,
run `_redefine_scale_param`, recompute `self.s` via
`_compute_weights(compute_free_parameter=False)` and fill the points again.
Returns the sigma array together with the final `self.s`. -/
def GeneralizedSigmaPoints.sigma_points_core {n : ℕ} (g : GeneralizedSigmaPoints n)
    (xc : Fin n → ℝ) (Pc : Matrix (Fin n) (Fin n) ℝ) :
    Except NpError ((Fin (2*n+1) → Fin n → ℝ) × (Fin (2*n+1) → ℝ)) :=
  if g.positively_constrained then
    match g.redefine_scale_param (GeneralizedSigmaPoints.sigma_pass n xc Pc g.s) with
    | .error e => .error e
    | .ok s2 =>
      .ok (GeneralizedSigmaPoints.sigma_pass n xc Pc
            (GeneralizedSigmaPoints.compute_weights_s { g with s := s2 } false),
          GeneralizedSigmaPoints.compute_weights_s { g with s := s2 } false)
  else .ok (GeneralizedSigmaPoints.sigma_pass n xc Pc g.s, g.s)

/-- The boolean array `x != self.x` computed by the consistency check of
`GeneralizedSigmaPoints.sigma_points`: elementwise against a stored array
(with numpy broadcasting), elementwise `True` against a stored `None`. -/
def GeneralizedSigmaPoints.neArray {n : ℕ} (g : GeneralizedSigmaPoints n)
    (xc : List ℝ) : Except NpError (List Bool) :=
  match g.x with
  | none => Except.ok (List.replicate xc.length true)
  | some xl => npNeBroadcast xc xl

/-- `GeneralizedSigmaPoints.sigma_points` on a runtime-sized mean: the size
check, then the consistency checks `if x != self.x: raise Warning(...)`
(performed twice on `x`, the second time with the message about `P`), with
numpy elementwise comparison and array truthiness, then the point
computation. -/
def GeneralizedSigmaPoints.sigma_points_list {n : ℕ} (g : GeneralizedSigmaPoints n)
    (xc : List ℝ) (Pc : Matrix (Fin n) (Fin n) ℝ) :
    Except NpError ((Fin (2*n+1) → Fin n → ℝ) × (Fin (2*n+1) → ℝ)) :=
  if n = xc.length then
    match g.neArray xc with
    | .error e => .error e
    | .ok nelist =>
      match npTruthy nelist with
      | .error e => .error e
      | .ok b =>
        if b then .error .warningXDiff
        else if b then .error .warningPDiff
        else g.sigma_points_core (fun i => xc.getD i 0) Pc
  else .error (.sizeMismatch n xc.length)

/-- `GeneralizedSigmaPoints.__init__`: store the moments, zero-initialise
`self.s`, run `_compute_weights()`, and when `positively_constrained` call
`self.sigma_points(x, P)` (whose result is discarded but whose mutation of
`self.s` is kept, and whose exceptions propagate). -/
def GeneralizedSigmaPoints.init (n : ℕ) (x : Option (List ℝ))
    (P : Matrix (Fin n) (Fin n) ℝ) (S K : Fin n → ℝ) (pc : Bool) (k : ℝ) :
    Except NpError (GeneralizedSigmaPoints n) :=
  let g0 : GeneralizedSigmaPoints n := ⟨x, P, S, K, k, pc, fun _ => 0⟩
  let g1 : GeneralizedSigmaPoints n := { g0 with s := g0.compute_weights_s true }
  if pc then
    match g1.sigma_points_list (x.getD []) P with
    | .error e => .error e
    | .ok r => .ok { g1 with s := r.2 }
  else .ok g1

lemma merwe_Wm_finZero {n : ℕ} (m : MerweScaledSigmaPoints n) :
    m.Wm (finZero n) = m.lambda_ / ((n : ℝ) + m.lambda_) := by
  rw [MerweScaledSigmaPoints.Wm, finZero_eq_zero, Function.update_same]

lemma merwe_Wc_finZero {n : ℕ} (m : MerweScaledSigmaPoints n) :
    m.Wc (finZero n) = m.lambda_ / ((n : ℝ) + m.lambda_) + (1 - m.alpha^2 + m.beta) := by
  rw [MerweScaledSigmaPoints.Wc, finZero_eq_zero, Function.update_same]

lemma merwe_Wm_finLower {n : ℕ} (m : MerweScaledSigmaPoints n) (k : Fin n) :
    m.Wm (finLower k) = 0.5 / ((n : ℝ) + m.lambda_) := by
  rw [MerweScaledSigmaPoints.Wm, Function.update_noteq (finLower_ne_zero k)]

lemma merwe_Wm_finUpper {n : ℕ} (m : MerweScaledSigmaPoints n) (k : Fin n) :
    m.Wm (finUpper k) = 0.5 / ((n : ℝ) + m.lambda_) := by
  rw [MerweScaledSigmaPoints.Wm, Function.update_noteq (finUpper_ne_zero k)]

lemma merwe_Wc_finLower {n : ℕ} (m : MerweScaledSigmaPoints n) (k : Fin n) :
    m.Wc (finLower k) = 0.5 / ((n : ℝ) + m.lambda_) := by
  rw [MerweScaledSigmaPoints.Wc, Function.update_noteq (finLower_ne_zero k)]

lemma merwe_Wc_finUpper {n : ℕ} (m : MerweScaledSigmaPoints n) (k : Fin n) :
    m.Wc (finUpper k) = 0.5 / ((n : ℝ) + m.lambda_) := by
  rw [MerweScaledSigmaPoints.Wc, Function.update_noteq (finUpper_ne_zero k)]

/-- Claim C3: for every `MerweScaledSigmaPoints` with `n + lambda_` nonzero,
the construction-time weights satisfy `Wm[0] = lambda/(n+lambda)`,
`Wc[0] = lambda/(n+lambda) + (1 - alpha^2 + beta)` and
`Wm[i] = Wc[i] = 0.5/(n+lambda)` for every `i >= 1`; both weight vectors are
indexed by `Fin (2n+1)`, so they have length `2n+1`. -/
theorem merwe_weight_formulas {n : ℕ} (m : MerweScaledSigmaPoints n)
    (h : (n : ℝ) + m.lambda_ ≠ 0) :
    m.Wm (finZero n) = m.lambda_ / ((n : ℝ) + m.lambda_)
    ∧ m.Wc (finZero n) = m.lambda_ / ((n : ℝ) + m.lambda_) + (1 - m.alpha^2 + m.beta)
    ∧ ∀ i : Fin (2*n+1), 1 ≤ i.val →
        m.Wm i = 0.5 / ((n : ℝ) + m.lambda_) ∧ m.Wc i = 0.5 / ((n : ℝ) + m.lambda_) := by
  refine ⟨merwe_Wm_finZero m, merwe_Wc_finZero m, ?_⟩
  intro i hi
  rcases fin_two_mul_add_one_cases i with h0 | ⟨k, rfl⟩ | ⟨k, rfl⟩
  · rw [h0] at hi
    simp [finZero] at hi
  · exact ⟨merwe_Wm_finLower m k, merwe_Wc_finLower m k⟩
  · exact ⟨merwe_Wm_finUpper m k, merwe_Wc_finUpper m k⟩

/-- Witness for C3 at `n = 1`, `alpha = 1`, `beta = 2`, `kappa = 0`. -/
theorem merwe_weight_formulas_witness :
    (((1:ℕ) : ℝ) + (⟨1, 2, 0, fun M => M, npSubtract 1⟩ : MerweScaledSigmaPoints 1).lambda_ ≠ 0)
    ∧ ((⟨1, 2, 0, fun M => M, npSubtract 1⟩ : MerweScaledSigmaPoints 1).Wm (finZero 1)
        = (⟨1, 2, 0, fun M => M, npSubtract 1⟩ : MerweScaledSigmaPoints 1).lambda_
          / (((1:ℕ) : ℝ) + (⟨1, 2, 0, fun M => M, npSubtract 1⟩ : MerweScaledSigmaPoints 1).lambda_)) := by
  have h : ((1:ℕ) : ℝ) + (⟨1, 2, 0, fun M => M, npSubtract 1⟩ : MerweScaledSigmaPoints 1).lambda_ ≠ 0 := by
    norm_num [MerweScaledSigmaPoints.lambda_]
  exact ⟨h, (merwe_weight_formulas _ h).1⟩

/-- Claim C4: for every `MerweScaledSigmaPoints` and every mean and
covariance, the `(2n+1) x n` sigma array has row `0` equal to `x`, row `k+1`
equal to `subtract(x, -U[k])` and row `n+k+1` equal to `subtract(x, U[k])`
where `U = sqrt((lambda_+n)*P)`; a scalar covariance is broadcast to
`eye(n)*P` first. -/
theorem merwe_sigma_point_layout {n : ℕ} (m : MerweScaledSigmaPoints n)
    (x : Fin n → ℝ) (P : Matrix (Fin n) (Fin n) ℝ) (p : ℝ) :
    m.sigma_points x P (finZero n) = x
    ∧ (∀ k : Fin n, m.sigma_points x P (finLower k)
        = m.subtract x (fun l => -(m.sqrt ((m.lambda_ + n) • P) k l)))
    ∧ (∀ k : Fin n, m.sigma_points x P (finUpper k)
        = m.subtract x (m.sqrt ((m.lambda_ + n) • P) k))
    ∧ m.sigma_points_scalarP x p
        = m.sigma_points x (p • (1 : Matrix (Fin n) (Fin n) ℝ)) := by
  refine ⟨?_, fun k => ?_, fun k => ?_, rfl⟩
  · exact tri_finZero n x _ _
  · exact tri_finLower n x _ _ k
  · exact tri_finUpper n x _ _ k

/-- Claim C5: for every one of the four generators, a mean whose element
count differs from the configured `n` makes `sigma_points` raise the
`ValueError` of the leading size check, before any point computation. -/
theorem size_mismatch_raises {n : ℕ} (m : MerweScaledSigmaPoints n)
    (j : JulierSigmaPoints n) (sp : SimplexSigmaPoints n)
    (g : GeneralizedSigmaPoints n) (xc : List ℝ)
    (P : Matrix (Fin n) (Fin n) ℝ) (h : xc.length ≠ n) :
    m.sigma_points_list xc P = .error (.sizeMismatch n xc.length)
    ∧ j.sigma_points_list xc P = .error (.sizeMismatch n xc.length)
    ∧ sp.sigma_points_list xc P = .error (.sizeMismatch n xc.length)
    ∧ g.sigma_points_list xc P = .error (.sizeMismatch n xc.length) := by
  have hne : ¬ (n = xc.length) := fun hh => h hh.symm
  refine ⟨?_, ?_, ?_, ?_⟩
  · rw [MerweScaledSigmaPoints.sigma_points_list, if_neg hne]
  · rw [JulierSigmaPoints.sigma_points_list, if_neg hne]
  · rw [SimplexSigmaPoints.sigma_points_list, if_neg hne]
  · rw [GeneralizedSigmaPoints.sigma_points_list, if_neg hne]

/-- Witness for C5: a length-1 mean against `n = 2` instances. -/
theorem size_mismatch_raises_witness :
    (⟨1, 2, 0, fun M => M, npSubtract 2⟩ : MerweScaledSigmaPoints 2).sigma_points_list [5] 1
      = .error (.sizeMismatch 2 1)
    ∧ (⟨0, fun M => M, npSubtract 2⟩ : JulierSigmaPoints 2).sigma_points_list [5] 1
      = .error (.sizeMismatch 2 1)
    ∧ (⟨1, fun M => M, npSubtract 2⟩ : SimplexSigmaPoints 2).sigma_points_list [5] 1
      = .error (.sizeMismatch 2 1)
    ∧ (⟨some [5], 1, fun _ => 0, fun _ => 3, 1, false, fun _ => 0⟩ :
        GeneralizedSigmaPoints 2).sigma_points_list [5] 1
      = .error (.sizeMismatch 2 1) :=
  size_mismatch_raises _ _ _ _ [5] 1 (by simp)

lemma npTruthy_error_of_length_ne_one (l : List Bool) (h : l.length ≠ 1) :
    npTruthy l = .error .truthAmbiguous := by
  rcases l with _ | ⟨a, _ | ⟨b, t⟩⟩
  · rfl
  · simp at h
  · rfl

/-- A fold of fallible steps fails whenever some list element makes the step
fail from every state. -/
lemma foldlM_error_of_step_error {α β : Type} (step : β → α → Except NpError β)
    (L : List α) (i : α) (hi : i ∈ L)
    (herr : ∀ s, ∃ e, step s i = .error e) :
    ∀ s, ∃ e, L.foldlM step s = .error e := by
  induction L with
  | nil => cases hi
  | cons a L ih =>
    intro s
    rw [List.foldlM_cons]
    rcases List.mem_cons.mp hi with hia | hiL
    · subst hia
      obtain ⟨e, he⟩ := herr s
      rw [he]
      exact ⟨e, rfl⟩
    · cases hstep : step s a with
      | error e => exact ⟨e, rfl⟩
      | ok s1 => exact ih hiL s1

/-- A successful `_redefine_scale_param` fold over a duplicate-free index list
updates exactly the triggered entries, each to `redefineVal`. -/
lemma redefine_foldlM_ok {n : ℕ} (g : GeneralizedSigmaPoints n)
    (sigmas : Fin (2*n+1) → Fin n → ℝ) :
    ∀ L : List (Fin (2*n+1)), L.Nodup → ∀ s s2 : Fin (2*n+1) → ℝ,
      L.foldlM (g.redefine_scale_param_step sigmas) s = .ok s2 →
      ∀ i, s2 i = if i ∈ L ∧ npMin (sigmas i) < 0 then g.redefineVal i else s i := by
  intro L
  induction L with
  | nil =>
    intro _ s s2 h i
    rw [List.foldlM_nil] at h
    cases h
    simp
  | cons a L ih =>
    intro hnd s s2 h i
    obtain ⟨ha, hndL⟩ := List.nodup_cons.mp hnd
    rw [List.foldlM_cons] at h
    cases hstep : g.redefine_scale_param_step sigmas s a with
    | error e =>
      rw [hstep] at h
      exact absurd h (by simp [Bind.bind, Except.bind])
    | ok s1 =>
      rw [hstep] at h
      have h1 : L.foldlM (g.redefine_scale_param_step sigmas) s1 = .ok s2 := h
      have hrec := ih hndL s1 s2 h1
      by_cases htrig : npMin (sigmas a) < 0
      · rw [GeneralizedSigmaPoints.redefine_scale_param_step, if_pos htrig] at hstep
        cases hidx : npIndex n ((a.val : ℤ) - 1) with
        | none =>
          rw [hidx] at hstep
          cases hstep
        | some c =>
          rw [hidx] at hstep
          cases hx : g.x with
          | none =>
            rw [hx] at hstep
            cases hstep
          | some xl =>
            rw [hx] at hstep
            cases hstep
            have hval : g.redefineVal a
                = g.k * npMin (fun j : Fin n => xl.getD j 0 / Real.sqrt (g.P j c)) := by
              simp [GeneralizedSigmaPoints.redefineVal, hidx, hx]
            rw [hrec i]
            by_cases hiL : i ∈ L
            · by_cases htrig2 : npMin (sigmas i) < 0
              · rw [if_pos ⟨hiL, htrig2⟩, if_pos ⟨List.mem_cons_of_mem a hiL, htrig2⟩]
              · rw [if_neg (fun hh => htrig2 hh.2), if_neg (fun hh => htrig2 hh.2),
                  Function.update_noteq (fun hh => ha (by rwa [hh] at hiL))]
            · by_cases hia : i = a
              · subst hia
                rw [if_neg (fun hh => hiL hh.1), if_pos ⟨List.mem_cons_self i L, htrig⟩,
                  Function.update_same, hval]
              · rw [if_neg (fun hh => hiL hh.1),
                  if_neg (fun hh => (List.mem_cons.mp hh.1).elim hia hiL),
                  Function.update_noteq hia]
      · rw [GeneralizedSigmaPoints.redefine_scale_param_step, if_neg htrig] at hstep
        cases hstep
        rw [hrec i]
        by_cases hiL : i ∈ L
        · by_cases htrig2 : npMin (sigmas i) < 0
          · rw [if_pos ⟨hiL, htrig2⟩, if_pos ⟨List.mem_cons_of_mem a hiL, htrig2⟩]
          · rw [if_neg (fun hh => htrig2 hh.2), if_neg (fun hh => htrig2 hh.2)]
        · by_cases hia : i = a
          · subst hia
            rw [if_neg (fun hh => hiL hh.1), if_neg (fun hh => htrig hh.2)]
          · rw [if_neg (fun hh => hiL hh.1),
              if_neg (fun hh => (List.mem_cons.mp hh.1).elim hia hiL)]

/-- Any call of `GeneralizedSigmaPoints.sigma_points` on an instance of
dimension `n >= 2` raises: either the size check fails, or the elementwise
comparison `x != self.x` produces a boolean array of more than one element,
whose truth value is ambiguous. -/
lemma gsp_list_call_errors {n : ℕ} (hn : 2 ≤ n) (g : GeneralizedSigmaPoints n)
    (xc : List ℝ) (Pc : Matrix (Fin n) (Fin n) ℝ) :
    ∃ e, g.sigma_points_list xc Pc = .error e := by
  by_cases hlen : n = xc.length
  · cases hx : g.x with
    | none =>
      have hA : g.neArray xc = .ok (List.replicate xc.length true) := by
        rw [GeneralizedSigmaPoints.neArray, hx]
      have hrep : npTruthy (List.replicate xc.length true) = .error .truthAmbiguous :=
        npTruthy_error_of_length_ne_one _ (by simp; omega)
      refine ⟨.truthAmbiguous, ?_⟩
      rw [GeneralizedSigmaPoints.sigma_points_list, if_pos hlen, hA]
      simp only [hrep]
    | some xl =>
      have hA : g.neArray xc = npNeBroadcast xc xl := by
        rw [GeneralizedSigmaPoints.neArray, hx]
      rw [GeneralizedSigmaPoints.sigma_points_list, if_pos hlen, hA]
      by_cases h1 : xc.length = xl.length
      · have hb : npNeBroadcast xc xl
            = .ok (List.zipWith (fun u v => decide (u ≠ v)) xc xl) := by
          rw [npNeBroadcast, if_pos h1]
        have hz : npTruthy (List.zipWith (fun u v => decide (u ≠ v)) xc xl)
            = .error .truthAmbiguous :=
          npTruthy_error_of_length_ne_one _ (by rw [List.length_zipWith]; omega)
        refine ⟨.truthAmbiguous, ?_⟩
        rw [hb]
        simp only [hz]
      · have hxc1 : ¬ xc.length = 1 := by omega
        by_cases h2 : xl.length = 1
        · have hb : npNeBroadcast xc xl
              = .ok (xc.map (fun u => decide (u ≠ xl.getD 0 0))) := by
            rw [npNeBroadcast, if_neg h1, if_neg hxc1, if_pos h2]
          have hz : npTruthy (xc.map (fun u => decide (u ≠ xl.getD 0 0)))
              = .error .truthAmbiguous :=
            npTruthy_error_of_length_ne_one _ (by rw [List.length_map]; omega)
          refine ⟨.truthAmbiguous, ?_⟩
          rw [hb]
          simp only [hz]
        · have hb : npNeBroadcast xc xl = .error .broadcastError := by
            rw [npNeBroadcast, if_neg h1, if_neg hxc1, if_neg h2]
          refine ⟨.broadcastError, ?_⟩
          rw [hb]
  · exact ⟨.sizeMismatch n xc.length,
      by rw [GeneralizedSigmaPoints.sigma_points_list, if_neg hlen]⟩

/-- Claim C9: for dimension `n >= 2`, every call of
`GeneralizedSigmaPoints.sigma_points` raises, even with a mean elementwise
equal to the stored one (and also when the stored mean is `None`), because
the consistency test `x != self.x` compares length-`n` arrays whose truth
value is ambiguous; in particular constructing with
`positively_constrained=True` and a length-`n` mean already raises inside the
constructor, which calls `sigma_points`. -/
theorem gsp_vector_mean_always_raises {n : ℕ} (hn : 2 ≤ n)
    (g : GeneralizedSigmaPoints n) (xc : List ℝ) (Pc : Matrix (Fin n) (Fin n) ℝ)
    (P0 : Matrix (Fin n) (Fin n) ℝ) (S0 K0 : Fin n → ℝ) (k0 : ℝ) (xl : List ℝ) :
    (∃ e, g.sigma_points_list xc Pc = .error e)
    ∧ ∃ e, GeneralizedSigmaPoints.init n (some xl) P0 S0 K0 true k0 = .error e := by
  refine ⟨gsp_list_call_errors hn g xc Pc, ?_⟩
  obtain ⟨e, he⟩ := gsp_list_call_errors hn
    ({ x := some xl, P := P0, S := S0, K := K0, k := k0, positively_constrained := true,
       s := GeneralizedSigmaPoints.compute_weights_s
         ⟨some xl, P0, S0, K0, k0, true, fun _ => 0⟩ true } : GeneralizedSigmaPoints n)
    xl P0
  refine ⟨e, ?_⟩
  rw [GeneralizedSigmaPoints.init]
  simp only [Option.getD_some, if_true]
  rw [he]

/-- Witness for C9 at `n = 2` with a stored mean equal to the call mean. -/
theorem gsp_vector_mean_always_raises_witness :
    (∃ e, (⟨some [5, 5], 1, fun _ => 0, fun _ => 3, 1, false, fun _ => 0⟩ :
        GeneralizedSigmaPoints 2).sigma_points_list [5, 5] 1 = .error e)
    ∧ ∃ e, GeneralizedSigmaPoints.init 2 (some [5, 5]) 1 (fun _ => 0) (fun _ => 3) true 1
        = .error e :=
  gsp_vector_mean_always_raises (by norm_num) _ [5, 5] 1 1 (fun _ => 0) (fun _ => 3) 1 [5, 5]

/-- For a dimension-1 instance whose stored mean equals the call mean, the
entry checks of `sigma_points` all pass (the one-element comparison array is
falsy) and the call reduces to the point computation. -/
lemma gsp_call_n1 (g : GeneralizedSigmaPoints 1) (a : ℝ)
    (Pc : Matrix (Fin 1) (Fin 1) ℝ) (hx : g.x = some [a]) :
    g.sigma_points_list [a] Pc
      = g.sigma_points_core (fun i => ([a] : List ℝ).getD i 0) Pc := by
  have hdec : (decide (a ≠ a)) = false := by simp
  have hA : g.neArray [a] = .ok [decide (a ≠ a)] := by
    rw [GeneralizedSigmaPoints.neArray, hx]
    rfl
  rw [GeneralizedSigmaPoints.sigma_points_list,
    if_pos (show (1:ℕ) = ([a] : List ℝ).length from rfl), hA]
  show (if decide (a ≠ a) = true then Except.error NpError.warningXDiff
        else if decide (a ≠ a) = true then Except.error NpError.warningPDiff
        else g.sigma_points_core (fun i => ([a] : List ℝ).getD i 0) Pc)
      = g.sigma_points_core (fun i => ([a] : List ℝ).getD i 0) Pc
  rw [hdec]
  simp

/-- The concrete constrained instance of dimension 1 witnessing that the
out-of-range column access of `_redefine_scale_param` is reachable:
`x = [1]`, `P = [[1]]`, `S = [-4]`, `K = [49/4]`, `k = 1`, with the scale
array computed at construction by `_compute_weights`.  Its first point pass
has `sigmas[2] = [-0.5]`, so row `2` triggers the correction, which reads
column `1` of the `1 x 1` covariance. -/
def gC10base : GeneralizedSigmaPoints 1 :=
  ⟨some [1], fun _ _ => 1, fun _ => -4, fun _ => 49/4, 1, true, fun _ => 0⟩

def gC10 : GeneralizedSigmaPoints 1 :=
  { gC10base with s := gC10base.compute_weights_s true }

/-- Claim C10: `_redefine_scale_param` iterates its row index over all `2n+1`
sigma rows while indexing columns of the `n`-column arrays at `i-1`: a
triggered row `0` reads column `-1`, which numpy wraps to the last column
`n-1`; a triggered row `i >= n+1` reads column `i-1 >= n`, out of range, so
the fold raises `IndexError`; and this is reachable: the concrete constrained
instance `gC10` raises from inside `sigma_points` on its stored mean and
covariance. -/
theorem gsp_redefine_out_of_range :
    (∀ (n : ℕ) (g : GeneralizedSigmaPoints n) (xl : List ℝ)
        (sigmas : Fin (2*n+1) → Fin n → ℝ) (s : Fin (2*n+1) → ℝ) (hn : 1 ≤ n),
        g.x = some xl → npMin (sigmas (finZero n)) < 0 →
        g.redefine_scale_param_step sigmas s (finZero n)
          = .ok (Function.update s (finZero n)
              (g.k * npMin (fun j : Fin n => xl.getD j 0 / Real.sqrt (g.P j ⟨n-1, by omega⟩)))))
    ∧ (∀ (n : ℕ) (g : GeneralizedSigmaPoints n) (sigmas : Fin (2*n+1) → Fin n → ℝ),
        (∃ i : Fin (2*n+1), n + 1 ≤ i.val ∧ npMin (sigmas i) < 0) →
        ∃ e, g.redefine_scale_param sigmas = .error e)
    ∧ ∃ e, gC10.sigma_points_list [1] gC10.P = .error e := by
  have hgen : ∀ (n : ℕ) (g : GeneralizedSigmaPoints n)
      (sigmas : Fin (2*n+1) → Fin n → ℝ),
      (∃ i : Fin (2*n+1), n + 1 ≤ i.val ∧ npMin (sigmas i) < 0) →
      ∃ e, g.redefine_scale_param sigmas = .error e := by
    intro n g sigmas h
    obtain ⟨i, hi, htrig⟩ := h
    rw [GeneralizedSigmaPoints.redefine_scale_param]
    refine foldlM_error_of_step_error _ _ i (List.mem_finRange i) (fun s => ?_) g.s
    have hidx : npIndex n ((i.val : ℤ) - 1) = none := by
      rw [npIndex, dif_neg (by omega), dif_neg (by omega)]
    rw [GeneralizedSigmaPoints.redefine_scale_param_step, if_pos htrig, hidx]
    exact ⟨.indexError, rfl⟩
  refine ⟨?_, hgen, ?_⟩
  · intro n g xl sigmas s hn hx htrig
    rw [GeneralizedSigmaPoints.redefine_scale_param_step, if_pos htrig]
    have h0 : (((finZero n).val : ℤ)) - 1 = -1 := by simp [finZero]
    have hidx : npIndex n (((finZero n).val : ℤ) - 1) = some ⟨n-1, by omega⟩ := by
      rw [h0, npIndex, dif_neg (by omega), dif_pos (by omega)]
      exact congrArg some (Fin.ext (by show ((-1 : ℤ) + (n : ℤ)).toNat = n - 1; omega))
    rw [hidx, hx]
  · set x1 : Fin 1 → ℝ := fun i => ([1] : List ℝ).getD i 0 with hx1
    have hx1v : ∀ j : Fin 1, x1 j = 1 := by
      intro j
      rw [Fin.eq_zero j, hx1]
      simp
    have hP : ∀ (j c : Fin 1), gC10.P j c = 1 := fun j c => rfl
    have hs2 : gC10.s (finUpper 0) = -1.5 := by
      show gC10base.compute_weights_s true (finUpper 0) = -1.5
      rw [GeneralizedSigmaPoints.compute_weights_s, tri_finUpper]
      simp only [GeneralizedSigmaPoints.sUpper, GeneralizedSigmaPoints.sLower,
        GeneralizedSigmaPoints.S_, GeneralizedSigmaPoints.K_, GeneralizedSigmaPoints.std,
        gC10base, if_true]
      rw [show Real.sqrt 1 = 1 from Real.sqrt_one]
      rw [show (4 * (49 / 4 / (1:ℝ)^(4:ℕ)) - 3 * (-4 / (1:ℝ)^(3:ℕ))^2) = 1 by norm_num]
      rw [Real.sqrt_one]
      norm_num
    have hrow2 : GeneralizedSigmaPoints.sigma_pass 1 x1 gC10.P gC10.s (finUpper 0)
        = fun j => x1 j + gC10.s (finUpper 0) * Real.sqrt (gC10.P j 0) :=
      tri_finUpper 1 x1 _ _ 0
    have hmin2 : npMin (GeneralizedSigmaPoints.sigma_pass 1 x1 gC10.P gC10.s (finUpper 0)) < 0 := by
      rw [hrow2, npMin_fin_one, hx1v, hs2, hP, Real.sqrt_one]
      norm_num
    obtain ⟨e, he⟩ := hgen 1 gC10
      (GeneralizedSigmaPoints.sigma_pass 1 x1 gC10.P gC10.s)
      ⟨finUpper 0, by norm_num [finUpper], hmin2⟩
    refine ⟨e, ?_⟩
    rw [gsp_call_n1 gC10 1 gC10.P rfl, ← hx1,
      GeneralizedSigmaPoints.sigma_points_core,
      if_pos (show gC10.positively_constrained = true from rfl), he]

/-- Witness for C10: the row-0 conjunct applied at a concrete dimension-3
instance whose row 0 is negative, and the upper-row conjunct applied at the
`gC10` scenario. -/
theorem gsp_redefine_out_of_range_witness :
    ((⟨some [1, 1, 1], 1, fun _ => 0, fun _ => 3, 1, true, fun _ => 0⟩ :
        GeneralizedSigmaPoints 3).redefine_scale_param_step (fun _ _ => -1) (fun _ => 0)
          (finZero 3)
      = .ok (Function.update (fun _ => 0) (finZero 3)
          ((⟨some [1, 1, 1], 1, fun _ => 0, fun _ => 3, 1, true, fun _ => 0⟩ :
              GeneralizedSigmaPoints 3).k
            * npMin (fun j : Fin 3 => ([1, 1, 1] : List ℝ).getD j 0
                / Real.sqrt ((⟨some [1, 1, 1], 1, fun _ => 0, fun _ => 3, 1, true, fun _ => 0⟩ :
                    GeneralizedSigmaPoints 3).P j ⟨3-1, by omega⟩)))))
    ∧ ∃ e, (⟨some [1], 1, fun _ => 0, fun _ => 3, 1, true, fun _ => 0⟩ :
        GeneralizedSigmaPoints 1).redefine_scale_param (fun _ _ => -1) = .error e :=
  ⟨gsp_redefine_out_of_range.1 3 _ [1, 1, 1] (fun _ _ => -1) (fun _ => 0) (by norm_num) rfl
      (lt_of_le_of_lt (npMin_le _ 0) (by norm_num)),
   gsp_redefine_out_of_range.2.1 1 _ (fun _ _ => -1)
     ⟨⟨2, by omega⟩, by norm_num, by rw [npMin_fin_one]; norm_num⟩⟩

lemma except_bind_ok {ε α β : Type} (a : α) (f : α → Except ε β) :
    ((Except.ok a : Except ε α) >>= f) = f a := rfl

lemma except_pure {ε α : Type} (a : α) : (pure a : Except ε α) = Except.ok a := rfl

/-- The constrained dimension-1 instance of the C7 counterexample, before the
constructor computes the scale array: `x = [1]`, `P = [[1]]`, `S = [-4]`,
`K = [28]`, slack `k = 1`. -/
def gCEbase : GeneralizedSigmaPoints 1 :=
  ⟨some [1], fun _ _ => 1, fun _ => -4, fun _ => 28, 1, true, fun _ => 0⟩

/-- The C7 counterexample instance with the construction-time scale array
(`s[1] = 6`, `s[2] = 2`). -/
def gCE : GeneralizedSigmaPoints 1 :=
  { gCEbase with s := gCEbase.compute_weights_s true }

/-- The scale array after `_redefine_scale_param` on the first point pass of
`gCE`: row 1 (`= [-5]`) triggers and `s[1]` becomes `k*min(x/sqrt(P)) = 1`;
rows 0 and 2 do not trigger. -/
def sCE2 : Fin (2*1+1) → ℝ := Function.update gCE.s (finLower 0) 1

/-- The scale array after the subsequent
`_compute_weights(compute_free_parameter=False)`:
`s = [0, 1, 1 + S_ = -3]`. -/
def sCE3 : Fin (2*1+1) → ℝ :=
  GeneralizedSigmaPoints.compute_weights_s { gCE with s := sCE2 } false

/-- The sigma array returned by `gCE.sigma_points([1], [[1]])`:
rows `[1], [0], [-2]`. -/
def sigCE : Fin (2*1+1) → Fin 1 → ℝ :=
  GeneralizedSigmaPoints.sigma_pass 1 (fun i => ([1] : List ℝ).getD i 0) gCE.P sCE3

lemma gCE_call_eval : gCE.sigma_points_list [1] gCE.P = .ok (sigCE, sCE3) := by
  have hP : ∀ j c : Fin 1, gCE.P j c = 1 := fun j c => rfl
  have hS : gCEbase.S_ 0 = -4 := by
    show (-4 : ℝ) / (Real.sqrt 1)^(3:ℕ) = -4
    rw [Real.sqrt_one]
    norm_num
  have hK : gCEbase.K_ 0 = 28 := by
    show (28 : ℝ) / (Real.sqrt 1)^(4:ℕ) = 28
    rw [Real.sqrt_one]
    norm_num
  have hlow : gCEbase.sLower true 0 = 6 := by
    simp only [GeneralizedSigmaPoints.sLower]
    rw [if_pos trivial, hS, hK]
    rw [show 4 * (28:ℝ) - 3 * (-4:ℝ)^2 = 8^2 by norm_num,
      Real.sqrt_sq (by norm_num : (0:ℝ) ≤ 8)]
    norm_num
  have hup : gCEbase.sUpper true 0 = 2 := by
    simp only [GeneralizedSigmaPoints.sUpper]
    rw [hlow, hS]
    norm_num
  have hgs1 : gCE.s (finLower (0 : Fin 1)) = 6 := by
    show gCEbase.compute_weights_s true (finLower 0) = 6
    rw [GeneralizedSigmaPoints.compute_weights_s, tri_finLower, hlow]
  have hgs2 : gCE.s (finUpper (0 : Fin 1)) = 2 := by
    show gCEbase.compute_weights_s true (finUpper 0) = 2
    rw [GeneralizedSigmaPoints.compute_weights_s, tri_finUpper, hup]
  set x1 : Fin 1 → ℝ := fun i => ([1] : List ℝ).getD i 0 with hx1def
  have hx1v : ∀ j : Fin 1, x1 j = 1 := by
    intro j
    rw [Fin.eq_zero j]
    rfl
  set sig1 := GeneralizedSigmaPoints.sigma_pass 1 x1 gCE.P gCE.s with hsig1
  have h00 : sig1 (finZero 1) = x1 := tri_finZero 1 x1 _ _
  have h01 : sig1 (finLower 0)
      = fun j => x1 j - gCE.s (finLower 0) * Real.sqrt (gCE.P j 0) :=
    tri_finLower 1 x1 _ _ 0
  have h02 : sig1 (finUpper 0)
      = fun j => x1 j + gCE.s (finUpper 0) * Real.sqrt (gCE.P j 0) :=
    tri_finUpper 1 x1 _ _ 0
  have hm0 : npMin (sig1 (finZero 1)) = 1 := by
    rw [h00, npMin_fin_one, hx1v]
  have hm1 : npMin (sig1 (finLower 0)) = -5 := by
    rw [h01, npMin_fin_one]
    show x1 0 - gCE.s (finLower 0) * Real.sqrt (gCE.P 0 0) = -5
    rw [hx1v 0, hgs1, hP 0 0, Real.sqrt_one]
    norm_num
  have hm2 : npMin (sig1 (finUpper 0)) = 3 := by
    rw [h02, npMin_fin_one]
    show x1 0 + gCE.s (finUpper 0) * Real.sqrt (gCE.P 0 0) = 3
    rw [hx1v 0, hgs2, hP 0 0, Real.sqrt_one]
    norm_num
  have hstep0 : ∀ s, gCE.redefine_scale_param_step sig1 s (finZero 1) = .ok s := by
    intro s
    rw [GeneralizedSigmaPoints.redefine_scale_param_step, if_neg (by rw [hm0]; norm_num)]
  have hstep1 : ∀ s, gCE.redefine_scale_param_step sig1 s (finLower 0)
      = .ok (Function.update s (finLower 0) 1) := by
    intro s
    rw [GeneralizedSigmaPoints.redefine_scale_param_step, if_pos (by rw [hm1]; norm_num)]
    have hidx : npIndex 1 (((finLower (0 : Fin 1)).val : ℤ) - 1) = some ⟨0, by omega⟩ := by
      decide
    rw [hidx, show gCE.x = some [1] from rfl]
    show Except.ok (Function.update s (finLower 0)
        (gCE.k * npMin (fun j : Fin 1 =>
          ([1] : List ℝ).getD j 0 / Real.sqrt (gCE.P j ⟨0, by omega⟩))))
      = Except.ok (Function.update s (finLower 0) 1)
    have hval : gCE.k * npMin (fun j : Fin 1 =>
        ([1] : List ℝ).getD j 0 / Real.sqrt (gCE.P j ⟨0, by omega⟩)) = 1 := by
      rw [npMin_fin_one]
      show gCE.k * ((1 : ℝ) / Real.sqrt (gCE.P 0 ⟨0, by omega⟩)) = 1
      rw [show gCE.k = (1:ℝ) from rfl, show gCE.P 0 ⟨0, by omega⟩ = (1:ℝ) from rfl,
        Real.sqrt_one]
      norm_num
    rw [hval]
  have hstep2 : ∀ s, gCE.redefine_scale_param_step sig1 s (finUpper 0) = .ok s := by
    intro s
    rw [GeneralizedSigmaPoints.redefine_scale_param_step, if_neg (by rw [hm2]; norm_num)]
  have hfr : List.finRange (2*1+1) = [finZero 1, finLower 0, finUpper 0] := by decide
  have hfold : gCE.redefine_scale_param sig1 = .ok sCE2 := by
    rw [GeneralizedSigmaPoints.redefine_scale_param, hfr]
    rw [List.foldlM_cons, hstep0 gCE.s, except_bind_ok,
      List.foldlM_cons, hstep1 gCE.s, except_bind_ok,
      List.foldlM_cons, hstep2 _, except_bind_ok,
      List.foldlM_nil, except_pure]
    rfl
  rw [gsp_call_n1 gCE 1 gCE.P rfl, ← hx1def,
    GeneralizedSigmaPoints.sigma_points_core,
    if_pos (show gCE.positively_constrained = true from rfl), hfold]
  rfl

/-- Claim C7 as stated is false on the code: the constrained instance `gCE`
(non-negative mean `[1]`, covariance `[[1]]`, slack `k = 1`) returns, after
the single correction pass, a point set whose additive row 2 is `[-2]`: the
correction rewrites `s[1]` but then `_compute_weights` recomputes
`s[2] = s[1] + S_`, which the very negative skew drives below `-x/sqrt(P)`. -/
theorem gsp_constrained_negative_counterexample :
    gCE.positively_constrained = true
    ∧ gCE.x = some [1]
    ∧ (0 : ℝ) ≤ ([1] : List ℝ).getD 0 0
    ∧ 0 < gCE.k ∧ gCE.k ≤ 1
    ∧ gCE.sigma_points_list [1] gCE.P = .ok (sigCE, sCE3)
    ∧ sigCE ⟨2, by omega⟩ ⟨0, by omega⟩ < 0 := by
  have hs3 : sCE3 (finUpper 0) = -3 := by
    show GeneralizedSigmaPoints.compute_weights_s { gCE with s := sCE2 } false (finUpper 0) = -3
    rw [GeneralizedSigmaPoints.compute_weights_s, tri_finUpper]
    show (1 : ℝ) + (-4 : ℝ) / (Real.sqrt 1)^(3:ℕ) = -3
    rw [Real.sqrt_one]
    norm_num
  refine ⟨rfl, rfl, (by norm_num : (0:ℝ) ≤ 1), (by norm_num : (0:ℝ) < 1),
    (by norm_num : (1:ℝ) ≤ 1), gCE_call_eval, ?_⟩
  have hrowU : sigCE (finUpper 0)
      = fun j => (fun i : Fin 1 => ([1] : List ℝ).getD i 0) j
          + sCE3 (finUpper 0) * Real.sqrt (gCE.P j 0) :=
    tri_finUpper 1 (fun i : Fin 1 => ([1] : List ℝ).getD i 0)
      (fun i_ j => (fun i : Fin 1 => ([1] : List ℝ).getD i 0) j
        - sCE3 (finLower i_) * Real.sqrt (gCE.P j i_))
      (fun i_ j => (fun i : Fin 1 => ([1] : List ℝ).getD i 0) j
        + sCE3 (finUpper i_) * Real.sqrt (gCE.P j i_)) 0
  have h2 : (⟨2, by omega⟩ : Fin (2*1+1)) = finUpper 0 := rfl
  rw [h2, hrowU]
  show (1 : ℝ) + sCE3 (finUpper 0) * Real.sqrt (gCE.P 0 0) < 0
  rw [hs3, show gCE.P (0 : Fin 1) (0 : Fin 1) = (1:ℝ) from rfl, Real.sqrt_one]
  norm_num

/-- Claim C7 amended: for a constrained generator with a stored non-negative
mean, entrywise-positive covariance and slack `0 < k <= 1`, any
`sigma_points` call on the stored mean and covariance that completes without
raising returns a set whose mean row and subtractive rows `1..n` are
non-negative; the additive rows `n+1..2n` can contain negative entries (see
the counterexample), because the correction recomputes `s[i+n] = s[i] + S_`.
(A call completes only when `n = 1`; for `n >= 2` every call raises, so the
statement is vacuous there.) -/
theorem gsp_constrained_lower_rows_nonneg {n : ℕ} (g : GeneralizedSigmaPoints n)
    (xl : List ℝ) (sig : Fin (2*n+1) → Fin n → ℝ) (sfin : Fin (2*n+1) → ℝ)
    (hpc : g.positively_constrained = true)
    (hx : g.x = some xl)
    (hxnn : ∀ j : Fin n, 0 ≤ xl.getD j 0)
    (hPpos : ∀ j c : Fin n, 0 < g.P j c)
    (hk0 : 0 < g.k) (hk1 : g.k ≤ 1)
    (h : g.sigma_points_list xl g.P = .ok (sig, sfin)) :
    (∀ j, 0 ≤ sig (finZero n) j)
    ∧ ∀ (i : Fin n) (j : Fin n), 0 ≤ sig (finLower i) j := by
  by_cases hlen : n = xl.length
  swap
  · rw [GeneralizedSigmaPoints.sigma_points_list, if_neg hlen] at h
    exact Except.noConfusion h
  rcases xl with _ | ⟨a, _ | ⟨b, t⟩⟩
  · have h0 : n = 0 := by simpa using hlen
    subst h0
    rw [GeneralizedSigmaPoints.sigma_points_list, if_pos hlen] at h
    have hA : ∀ m : GeneralizedSigmaPoints 0, m.x = some [] →
        m.neArray [] = Except.ok ([] : List Bool) := by
      intro m hm
      rw [GeneralizedSigmaPoints.neArray, hm]
      rfl
    rw [hA g hx] at h
    exact Except.noConfusion
      (show (Except.error NpError.truthAmbiguous :
          Except NpError ((Fin (2*0+1) → Fin 0 → ℝ) × (Fin (2*0+1) → ℝ)))
        = Except.ok (sig, sfin) from h)
  · have hn1 : n = 1 := by simpa using hlen
    subst hn1
    rw [gsp_call_n1 g a g.P hx] at h
    rw [GeneralizedSigmaPoints.sigma_points_core, if_pos hpc] at h
    have ha : (0 : ℝ) ≤ a := hxnn 0
    cases hred : g.redefine_scale_param
        (GeneralizedSigmaPoints.sigma_pass 1
          (fun i : Fin 1 => ([a] : List ℝ).getD i 0) g.P g.s) with
    | error e =>
      rw [hred] at h
      exact Except.noConfusion
        (show (Except.error e :
            Except NpError ((Fin (2*1+1) → Fin 1 → ℝ) × (Fin (2*1+1) → ℝ)))
          = Except.ok (sig, sfin) from h)
    | ok s2 =>
      rw [hred] at h
      have h2 : (GeneralizedSigmaPoints.sigma_pass 1
            (fun i : Fin 1 => ([a] : List ℝ).getD i 0) g.P
            (GeneralizedSigmaPoints.compute_weights_s { g with s := s2 } false),
          GeneralizedSigmaPoints.compute_weights_s { g with s := s2 } false)
          = (sig, sfin) := Except.ok.inj h
      have hsig : sig = GeneralizedSigmaPoints.sigma_pass 1
          (fun i : Fin 1 => ([a] : List ℝ).getD i 0) g.P
          (GeneralizedSigmaPoints.compute_weights_s { g with s := s2 } false) :=
        (congrArg Prod.fst h2).symm
      rw [GeneralizedSigmaPoints.redefine_scale_param] at hred
      have hs2 := redefine_foldlM_ok g _ (List.finRange (2*1+1))
        (List.nodup_finRange _) g.s s2 hred
      have hs3l : GeneralizedSigmaPoints.compute_weights_s { g with s := s2 } false
          (finLower 0) = s2 (finLower 0) := by
        rw [GeneralizedSigmaPoints.compute_weights_s, tri_finLower]
        rfl
      have hrow0 : sig (finZero 1) = fun i : Fin 1 => ([a] : List ℝ).getD i 0 := by
        rw [hsig]
        exact tri_finZero 1 _ _ _
      have hrowl : sig (finLower 0)
          = fun j => (fun i : Fin 1 => ([a] : List ℝ).getD i 0) j
              - GeneralizedSigmaPoints.compute_weights_s { g with s := s2 } false
                  (finLower 0) * Real.sqrt (g.P j 0) := by
        rw [hsig]
        exact tri_finLower 1 _ _ _ 0
      constructor
      · intro j
        rw [hrow0]
        exact hxnn j
      · intro i j
        rw [Fin.eq_zero i, Fin.eq_zero j, hrowl]
        show 0 ≤ (fun i : Fin 1 => ([a] : List ℝ).getD i 0) 0
            - GeneralizedSigmaPoints.compute_weights_s { g with s := s2 } false
                (finLower 0) * Real.sqrt (g.P 0 0)
        rw [hs3l]
        have hmem : finLower (0 : Fin 1) ∈ List.finRange (2*1+1) := List.mem_finRange _
        by_cases htrig : npMin (GeneralizedSigmaPoints.sigma_pass 1
            (fun i => ([a] : List ℝ).getD i 0) g.P g.s (finLower 0)) < 0
        · rw [hs2 (finLower 0), if_pos ⟨hmem, htrig⟩]
          have hidx : npIndex 1 (((finLower (0 : Fin 1)).val : ℤ) - 1)
              = some ⟨0, by omega⟩ := by
            have hv : ((finLower (0 : Fin 1)).val : ℤ) - 1 = 0 := by
              simp [finLower]
            rw [hv, npIndex, dif_pos (by omega)]
            exact congrArg some (Fin.ext (by simp))
          have hval : g.redefineVal (finLower 0)
              = g.k * npMin (fun j : Fin 1 =>
                  ([a] : List ℝ).getD j 0 / Real.sqrt (g.P j ⟨0, by omega⟩)) := by
            simp only [GeneralizedSigmaPoints.redefineVal, hidx, hx]
          rw [hval, npMin_fin_one]
          show 0 ≤ a - g.k * (a / Real.sqrt (g.P 0 ⟨0, by omega⟩)) * Real.sqrt (g.P 0 0)
          have hz : (⟨0, by omega⟩ : Fin 1) = 0 := rfl
          rw [hz]
          have hsq : 0 < Real.sqrt (g.P 0 0) := Real.sqrt_pos.mpr (hPpos 0 0)
          rw [mul_assoc, div_mul_cancel₀ a (ne_of_gt hsq)]
          nlinarith [ha, hk0, hk1]
        · rw [hs2 (finLower 0), if_neg (fun hh => htrig hh.2)]
          have hsame : GeneralizedSigmaPoints.sigma_pass 1
              (fun i => ([a] : List ℝ).getD i 0) g.P g.s (finLower 0)
              = fun j => (fun i : Fin 1 => ([a] : List ℝ).getD i 0) j
                  - g.s (finLower 0) * Real.sqrt (g.P j 0) :=
            tri_finLower 1 _ _ _ 0
          have hge : 0 ≤ npMin (GeneralizedSigmaPoints.sigma_pass 1
              (fun i => ([a] : List ℝ).getD i 0) g.P g.s (finLower 0)) :=
            not_lt.mp htrig
          rw [npMin_fin_one, hsame] at hge
          exact hge
  · have hn2 : 2 ≤ n := by
      rw [hlen, List.length_cons, List.length_cons]
      omega
    obtain ⟨e, he⟩ := gsp_list_call_errors hn2 g (a :: b :: t) g.P
    rw [he] at h
    exact Except.noConfusion h

/-- Witness for the amended C7: the constrained `gCE` scenario itself
satisfies every hypothesis, and its returned rows 0 and 1 are `[1]` and `[0]`,
both non-negative. -/
theorem gsp_constrained_lower_rows_nonneg_witness :
    (∀ j, 0 ≤ sigCE (finZero 1) j)
    ∧ ∀ (i : Fin 1) (j : Fin 1), 0 ≤ sigCE (finLower i) j :=
  gsp_constrained_lower_rows_nonneg gCE [1] sigCE sCE3 rfl rfl
    (fun j => by rw [Fin.eq_zero j]; exact (by norm_num : (0:ℝ) ≤ 1))
    (fun j c => by
      rw [show gCE.P j c = (1:ℝ) from rfl]
      norm_num)
    (by rw [show gCE.k = (1:ℝ) from rfl]; norm_num)
    (by rw [show gCE.k = (1:ℝ) from rfl])
    gCE_call_eval

/-- The concrete `JulierSigmaPoints` of claim C8: `n = 2`, `kappa = 0`, with
the default `sqrt_method` (`scipy.linalg.cholesky`, modelled by `cholesky`)
and the default `subtract` (`np.subtract`). -/
def j8 : JulierSigmaPoints 2 := ⟨0, cholesky 2, npSubtract 2⟩

/-- Claim C8: for the Julier generator with `n = 2` and `kappa = 0` under the
default square root and subtraction, the weights satisfy
`Wm[0] = Wc[0] = 0` and `Wm[i] = Wc[i] = 0.25` for `i = 1..4` (with `Wc` the
very same array as `Wm`), and `sigma_points([0,0], eye(2))` yields `5` points:
point `0` is the origin and the other four lie at `+sqrt 2` and `-sqrt 2`
along each of the two axes. -/
theorem julier_n2_concrete :
    JulierSigmaPoints.num_sigmas 2 = 5
    ∧ j8.Wm (finZero 2) = 0
    ∧ j8.Wc (finZero 2) = 0
    ∧ j8.Wm ⟨1, by omega⟩ = 0.25 ∧ j8.Wm ⟨2, by omega⟩ = 0.25
    ∧ j8.Wm ⟨3, by omega⟩ = 0.25 ∧ j8.Wm ⟨4, by omega⟩ = 0.25
    ∧ j8.Wc = j8.Wm
    ∧ j8.sigma_points (fun _ => 0) 1 (finZero 2) = (fun _ => 0)
    ∧ j8.sigma_points (fun _ => 0) 1 ⟨1, by omega⟩ ⟨0, by omega⟩ = Real.sqrt 2
    ∧ j8.sigma_points (fun _ => 0) 1 ⟨1, by omega⟩ ⟨1, by omega⟩ = 0
    ∧ j8.sigma_points (fun _ => 0) 1 ⟨2, by omega⟩ ⟨0, by omega⟩ = 0
    ∧ j8.sigma_points (fun _ => 0) 1 ⟨2, by omega⟩ ⟨1, by omega⟩ = Real.sqrt 2
    ∧ j8.sigma_points (fun _ => 0) 1 ⟨3, by omega⟩ ⟨0, by omega⟩ = -Real.sqrt 2
    ∧ j8.sigma_points (fun _ => 0) 1 ⟨3, by omega⟩ ⟨1, by omega⟩ = 0
    ∧ j8.sigma_points (fun _ => 0) 1 ⟨4, by omega⟩ ⟨0, by omega⟩ = 0
    ∧ j8.sigma_points (fun _ => 0) 1 ⟨4, by omega⟩ ⟨1, by omega⟩ = -Real.sqrt 2 := by
  have hM : ∀ (a b : Fin 2), ((2 : ℝ) • (1 : Matrix (Fin 2) (Fin 2) ℝ)) a b
      = if a = b then 2 else 0 := by
    intro a b
    by_cases h : a = b
    · simp [h, Matrix.smul_apply, Matrix.one_apply]
    · simp [h, Matrix.smul_apply, Matrix.one_apply]
  have hU : ∀ (a b : Fin 2), cholesky 2 ((2 : ℝ) • 1) a b
      = if a = b then Real.sqrt 2 else 0 := by
    intro a b
    fin_cases a <;> fin_cases b <;>
      simp [cholesky, cholRows, cholNextRow, hM]
  refine ⟨rfl, ?_, ?_, ?_, ?_, ?_, ?_, rfl, ?_, ?_, ?_, ?_, ?_, ?_, ?_, ?_, ?_⟩
  · rw [JulierSigmaPoints.Wm, finZero_eq_zero, Function.update_same]
    norm_num [j8]
  · rw [JulierSigmaPoints.Wc, JulierSigmaPoints.Wm, finZero_eq_zero, Function.update_same]
    norm_num [j8]
  · rw [JulierSigmaPoints.Wm, Function.update_noteq (Fin.ne_of_val_ne (by norm_num))]
    norm_num [j8]
  · rw [JulierSigmaPoints.Wm, Function.update_noteq (Fin.ne_of_val_ne (by norm_num))]
    norm_num [j8]
  · rw [JulierSigmaPoints.Wm, Function.update_noteq (Fin.ne_of_val_ne (by norm_num))]
    norm_num [j8]
  · rw [JulierSigmaPoints.Wm, Function.update_noteq (Fin.ne_of_val_ne (by norm_num))]
    norm_num [j8]
  · funext l
    simp [JulierSigmaPoints.sigma_points, tri, finZero]
  all_goals
    simp [JulierSigmaPoints.sigma_points, tri, j8, npSubtract, hU]

/-- Unconstrained dimension-1 instance with stored mean `[2]` and stored
covariance `[[4]]`, used to exhibit that a call with an unchanged mean but a
different covariance is not flagged. -/
def gC6 : GeneralizedSigmaPoints 1 :=
  ⟨some [2], fun _ _ => 4, fun _ => 0, fun _ => 3, 0, false, fun _ => 0⟩

/-- Claim C6 is violated by the code: both consistency checks of
`GeneralizedSigmaPoints.sigma_points` test `x != self.x` (the second one only
pretends to test `P`, as its raise-message says), so a call whose covariance
`[[9]]` differs from the stored `[[4]]` while the mean equals the stored one
completes without any warning or error. -/
theorem gsp_covariance_mismatch_not_flagged :
    gC6.x = some [2]
    ∧ gC6.P 0 0 = 4
    ∧ (4 : ℝ) ≠ 9
    ∧ ∃ r, gC6.sigma_points_list [2] (fun _ _ => 9) = .ok r := by
  refine ⟨rfl, rfl, by norm_num, ?_⟩
  rw [gsp_call_n1 gC6 2 (fun _ _ => 9) rfl]
  rw [GeneralizedSigmaPoints.sigma_points_core,
    if_neg (show ¬(gC6.positively_constrained = true) from Bool.false_ne_true)]
  exact ⟨_, rfl⟩

/-- Claim C1: for a `MerweScaledSigmaPoints` generator with the default
elementwise subtract and an injected square root satisfying
`U.T @ U = input` at the matrix it is called on, with `n + lambda_` nonzero:
the `Wm`-weighted sum of the sigma points is the input mean and the
`Wc`-weighted sum of outer products of the centred sigma points is the input
covariance. -/
theorem merwe_unscented_round_trip {n : ℕ} (m : MerweScaledSigmaPoints n)
    (x : Fin n → ℝ) (P : Matrix (Fin n) (Fin n) ℝ)
    (hlam : (n : ℝ) + m.lambda_ ≠ 0)
    (hsub : m.subtract = npSubtract n)
    (hU : Matrix.transpose (m.sqrt ((m.lambda_ + n) • P)) * m.sqrt ((m.lambda_ + n) • P)
        = (m.lambda_ + n) • P) :
    (∑ i, m.Wm i • m.sigma_points x P i) = x
    ∧ (∑ i, m.Wc i • Matrix.vecMulVec (m.sigma_points x P i - x)
        (m.sigma_points x P i - x)) = P := by
  set U := m.sqrt ((m.lambda_ + n) • P) with hUdef
  have hrow0 : m.sigma_points x P (finZero n) = x := tri_finZero n x _ _
  have hrowl : ∀ (k : Fin n) (l : Fin n),
      m.sigma_points x P (finLower k) l = x l + U k l := by
    intro k l
    rw [MerweScaledSigmaPoints.sigma_points, tri_finLower, hsub]
    simp [npSubtract]
  have hrowu : ∀ (k : Fin n) (l : Fin n),
      m.sigma_points x P (finUpper k) l = x l - U k l := by
    intro k l
    rw [MerweScaledSigmaPoints.sigma_points, tri_finUpper, hsub]
    simp [npSubtract]
  have hUU : ∀ (j l : Fin n), ∑ k, U k j * U k l = (m.lambda_ + (n : ℝ)) * P j l := by
    intro j l
    have h1 : (Matrix.transpose U * U) j l = ((m.lambda_ + (n : ℝ)) • P) j l := by rw [hU]
    rw [Matrix.mul_apply] at h1
    simpa [Matrix.transpose_apply, Matrix.smul_apply, smul_eq_mul] using h1
  constructor
  · funext j
    have happ : (∑ i, m.Wm i • m.sigma_points x P i) j
        = ∑ i, m.Wm i * m.sigma_points x P i j := by
      simp [Finset.sum_apply]
    rw [happ, sum_split]
    have hl : ∑ k : Fin n, m.Wm (finLower k) * m.sigma_points x P (finLower k) j
        = ∑ k : Fin n, 0.5 / ((n : ℝ) + m.lambda_) * (x j + U k j) :=
      Finset.sum_congr rfl (fun k _ => by rw [merwe_Wm_finLower, hrowl])
    have hu : ∑ k : Fin n, m.Wm (finUpper k) * m.sigma_points x P (finUpper k) j
        = ∑ k : Fin n, 0.5 / ((n : ℝ) + m.lambda_) * (x j - U k j) :=
      Finset.sum_congr rfl (fun k _ => by rw [merwe_Wm_finUpper, hrowu])
    rw [hl, hu, merwe_Wm_finZero, hrow0, ← Finset.sum_add_distrib]
    have hsummand : ∀ k : Fin n,
        0.5 / ((n : ℝ) + m.lambda_) * (x j + U k j)
          + 0.5 / ((n : ℝ) + m.lambda_) * (x j - U k j)
        = 1 / ((n : ℝ) + m.lambda_) * x j := fun k => by ring
    rw [Finset.sum_congr rfl (fun k _ => hsummand k), Finset.sum_const,
      Finset.card_univ, Fintype.card_fin, nsmul_eq_mul]
    field_simp
    ring
  · ext j l
    have happ : (∑ i, m.Wc i • Matrix.vecMulVec (m.sigma_points x P i - x)
        (m.sigma_points x P i - x)) j l
        = ∑ i, m.Wc i * ((m.sigma_points x P i j - x j) * (m.sigma_points x P i l - x l)) := by
      simp [Matrix.sum_apply, Matrix.smul_apply, Matrix.vecMulVec_apply, Pi.sub_apply]
    rw [happ, sum_split]
    have hz : m.Wc (finZero n) * ((m.sigma_points x P (finZero n) j - x j)
        * (m.sigma_points x P (finZero n) l - x l)) = 0 := by
      rw [hrow0]
      ring
    have hlo : ∑ k : Fin n, m.Wc (finLower k) * ((m.sigma_points x P (finLower k) j - x j)
        * (m.sigma_points x P (finLower k) l - x l))
        = ∑ k : Fin n, 0.5 / ((n : ℝ) + m.lambda_) * (U k j * U k l) :=
      Finset.sum_congr rfl (fun k _ => by rw [merwe_Wc_finLower, hrowl, hrowl]; ring)
    have hup : ∑ k : Fin n, m.Wc (finUpper k) * ((m.sigma_points x P (finUpper k) j - x j)
        * (m.sigma_points x P (finUpper k) l - x l))
        = ∑ k : Fin n, 0.5 / ((n : ℝ) + m.lambda_) * (U k j * U k l) :=
      Finset.sum_congr rfl (fun k _ => by rw [merwe_Wc_finUpper, hrowu, hrowu]; ring)
    rw [hz, hlo, hup, ← Finset.mul_sum, hUU]
    field_simp
    ring

/-- Witness for C1 at `n = 1`, `alpha = 1`, `beta = 0`, `kappa = 0`,
`x = 0`, `P` the identity, `sqrt` the identity function (whose value at the
identity matrix is its own transponent-factor). -/
theorem merwe_unscented_round_trip_witness :
    (∑ i, (⟨1, 0, 0, fun M => M, npSubtract 1⟩ : MerweScaledSigmaPoints 1).Wm i
      • (⟨1, 0, 0, fun M => M, npSubtract 1⟩ : MerweScaledSigmaPoints 1).sigma_points
          (fun _ => 0) 1 i) = (fun _ => 0)
    ∧ (∑ i, (⟨1, 0, 0, fun M => M, npSubtract 1⟩ : MerweScaledSigmaPoints 1).Wc i
      • Matrix.vecMulVec
          ((⟨1, 0, 0, fun M => M, npSubtract 1⟩ : MerweScaledSigmaPoints 1).sigma_points
            (fun _ => 0) 1 i - fun _ => 0)
          ((⟨1, 0, 0, fun M => M, npSubtract 1⟩ : MerweScaledSigmaPoints 1).sigma_points
            (fun _ => 0) 1 i - fun _ => 0)) = 1 :=
  merwe_unscented_round_trip _ (fun _ => 0) 1
    (by norm_num [MerweScaledSigmaPoints.lambda_])
    rfl
    (by
      have hl : (⟨1, 0, 0, fun M => M, npSubtract 1⟩ :
          MerweScaledSigmaPoints 1).lambda_ = 0 := by
        norm_num [MerweScaledSigmaPoints.lambda_]
      rw [hl]
      norm_num)

/-- Claim C2: the mean-weight vector sums to one for all four generators:
`MerweScaledSigmaPoints` and `JulierSigmaPoints` whenever their weight
denominators are nonzero, `SimplexSigmaPoints` always, and
`GeneralizedSigmaPoints` for both the construction-time weight computation
(`cf = true`) and the constrained recomputation (`cf = false`), since
`w[0] = 1 - sum(w)` by construction. -/
theorem wm_sums_to_one :
    (∀ (n : ℕ) (m : MerweScaledSigmaPoints n), (n : ℝ) + m.lambda_ ≠ 0 → ∑ i, m.Wm i = 1)
    ∧ (∀ (n : ℕ) (j : JulierSigmaPoints n), (n : ℝ) + j.kappa ≠ 0 → ∑ i, j.Wm i = 1)
    ∧ (∀ n : ℕ, ∑ i, SimplexSigmaPoints.Wm n i = 1)
    ∧ (∀ (n : ℕ) (g : GeneralizedSigmaPoints n) (cf : Bool), ∑ i, g.w cf i = 1) := by
  refine ⟨?_, ?_, ?_, ?_⟩
  · intro n m h
    rw [sum_split, merwe_Wm_finZero,
      Finset.sum_congr rfl (fun k _ => merwe_Wm_finLower m k),
      Finset.sum_congr rfl (fun k _ => merwe_Wm_finUpper m k),
      Finset.sum_const, Finset.card_univ, Fintype.card_fin, nsmul_eq_mul]
    field_simp
    ring
  · intro n j h
    have hz : j.Wm (finZero n) = j.kappa / ((n : ℝ) + j.kappa) := by
      rw [JulierSigmaPoints.Wm, finZero_eq_zero, Function.update_same]
    have hl : ∀ k : Fin n, j.Wm (finLower k) = 0.5 / ((n : ℝ) + j.kappa) := fun k => by
      rw [JulierSigmaPoints.Wm, Function.update_noteq (finLower_ne_zero k)]
    have hu : ∀ k : Fin n, j.Wm (finUpper k) = 0.5 / ((n : ℝ) + j.kappa) := fun k => by
      rw [JulierSigmaPoints.Wm, Function.update_noteq (finUpper_ne_zero k)]
    rw [sum_split, hz, Finset.sum_congr rfl (fun k _ => hl k),
      Finset.sum_congr rfl (fun k _ => hu k),
      Finset.sum_const, Finset.card_univ, Fintype.card_fin, nsmul_eq_mul]
    field_simp
    ring
  · intro n
    simp only [SimplexSigmaPoints.Wm]
    rw [Finset.sum_const, Finset.card_univ, Fintype.card_fin, nsmul_eq_mul]
    have hne : (n : ℝ) + 1 ≠ 0 := by positivity
    push_cast
    field_simp
  · intro n g cf
    rw [GeneralizedSigmaPoints.w, sum_split, tri_finZero,
      Finset.sum_congr rfl (fun k _ => tri_finLower n _ _ _ k),
      Finset.sum_congr rfl (fun k _ => tri_finUpper n _ _ _ k)]
    ring

/-- Witness for C2 at concrete instances of all four generators. -/
theorem wm_sums_to_one_witness :
    (∑ i, (⟨1, 2, 0, fun M => M, npSubtract 1⟩ : MerweScaledSigmaPoints 1).Wm i = 1)
    ∧ (∑ i, (⟨0, fun M => M, npSubtract 2⟩ : JulierSigmaPoints 2).Wm i = 1)
    ∧ (∑ i, SimplexSigmaPoints.Wm 2 i = 1)
    ∧ (∑ i, (⟨some [1], fun _ _ => 1, fun _ => 0, fun _ => 1, 1, false, fun _ => 0⟩ :
        GeneralizedSigmaPoints 1).w true i = 1) :=
  ⟨wm_sums_to_one.1 1 _ (by norm_num [MerweScaledSigmaPoints.lambda_]),
   wm_sums_to_one.2.1 2 _ (by norm_num),
   wm_sums_to_one.2.2.1 2,
   wm_sums_to_one.2.2.2 1 _ true⟩

end
